import Mathlib

/-!
Verification of the chunked parallel upload engine in `src/s3upload.py`.

The development shallowly embeds the program:

* the Chunker (`iterate_stream`, `data_collector`) acts on explicit byte
  lists (an element of type `α` stands for one byte/character);
* the Part Uploader (`upload_part`) is embedded as a pure function that,
  given the behaviour of the backend call on each attempt, returns both the
  list of buffer/backend events it performs and its returned value;
* the coordinator/transaction flow of `upload` is embedded as a sequential
  run that records the backend calls in a trace (the properties settled
  against it — which of `complete_upload` / `cancel_upload` are invoked,
  and which exception propagates — do not depend on the worker schedule);
* the in-flight counter and the admission-control loop are embedded as a
  small-step transition system over all interleavings of the submission
  loop and the worker completion callbacks;
* the error queue (`Queue`) is embedded as a FIFO list with the two
  operations the program uses (`put`, non-blocking `get`).
-/

namespace S3Upload

/-! ## Chunker: `iterate_stream` and `data_collector` (s3upload.py lines 12-53) -/

/-- outcome of one backend part-upload call (`upload_func(...)` either
returns or raises an exception carrying an error of type `ε`). -/
inductive Attempt (ε : Type) where
  | success : Attempt ε
  | failure (e : ε) : Attempt ε
deriving DecidableEq

/-- Embedding of `iterate_stream` (lines 12-28): repeatedly read up to
`C` bytes from the stream; stop when a read returns zero bytes.  A read of
`C` bytes from remaining data `d` yields `d.take C` and leaves `d.drop C`.
(With `C = 0` the source's `read(0)` returns the empty string at once and
the generator yields nothing, matching the `else` branch.) -/
def iterate_stream (C : Nat) (data : List α) : List (List α) :=
  if _h : 0 < C ∧ 0 < data.length then
    data.take C :: iterate_stream C (data.drop C)
  else []
termination_by data.length
decreasing_by
  simp only [List.length_drop]
  omega

/-- Embedding of the inner `while len(buf) >= def_buf_size` loop of
`data_collector` (lines 48-51): while the buffer holds at least `C`
elements, emit exactly the first `C` and retain the rest.  Returns the
emitted chunks together with the final buffer.  (The source loops forever
when `def_buf_size = 0`; the guard `0 < C` makes the embedding total and
the theorems assume a positive chunk size.) -/
def emitChunks (C : Nat) (buf : List α) : List (List α) × List α :=
  if _h : 0 < C ∧ C ≤ buf.length then
    let rest := emitChunks C (buf.drop C)
    (buf.take C :: rest.1, rest.2)
  else ([], buf)
termination_by buf.length
decreasing_by
  simp only [List.length_drop]
  omega

/-- Embedding of the fragment path of `data_collector` (lines 45-53): fold
each incoming fragment into the accumulator `buf`, run the inner emitting
loop, and after the input is exhausted yield the non-empty remainder. -/
def collectLoop (C : Nat) : List α → List (List α) → List (List α)
  | buf, [] => if 0 < buf.length then [buf] else []
  | buf, d :: ds =>
    let r := emitChunks C (buf ++ d)
    r.1 ++ collectLoop C r.2 ds

/-- a data source: either a readable stream (the `hasattr(iterable, 'read')`
branch) or a sequence of in-memory fragments. -/
inductive Source (α : Type) where
  | stream (data : List α) : Source α
  | fragments (frags : List (List α)) : Source α

/-- the total byte content of a source, in order. -/
def sourceBytes : Source α → List α
  | Source.stream d => d
  | Source.fragments fs => fs.flatten

/-- Embedding of `data_collector` (lines 30-53): dispatch on whether the
input supports `read`. -/
def data_collector (C : Nat) : Source α → List (List α)
  | Source.stream d => iterate_stream C d
  | Source.fragments fs => collectLoop C [] fs

/-- Embedding of the part-number assignment of the submission loop
(lines 132-133): `for part_no, part in enumerate(iterable): part_no += 1`
pairs the parts with 1-based indices in source order. -/
def enumerateParts (parts : List β) : List (Nat × β) :=
  parts.enum.map (fun p => (p.1 + 1, p.2))

/-- concrete source used to instantiate the Chunker theorem. -/
def srcW : Source Nat := Source.fragments [[0, 1, 2], [3, 4]]

/-! ## Part Uploader: `upload_part` (s3upload.py lines 55-73) -/

/-- observable events of one `upload_part` call: a rewind of the part
buffer (`part_data.seek(pos)`) or a backend call
(`upload_func(part_data, part_no, ...)`) on a given 0-based attempt. -/
inductive PartEv where
  | seek (pos : Nat) : PartEv
  | callUpload (part_no attempt : Nat) : PartEv
deriving DecidableEq

/-- Embedding of the retry loop of `upload_part` (lines 62-73).
`upload_func part_no i` is the behaviour of the backend call on the i-th
attempt; `retries` is `retries_left`; `attempt` counts the attempts made so
far.  Each iteration seeks to 0, calls the backend, breaks on success, and
on the final failure returns the `threading.ThreadError` message
`repr(threading.current_thread()) + ' ' + repr(exc)` built from the worker
repr `th` and the repr `rep exc` of the last exception.  The result is the
event list together with the returned value (`None` on success).  The
`try`/`except` catches every backend exception, so the function always
returns; it never raises. -/
def uploadPartAux (upload_func : Nat → Nat → Attempt ε) (th : String)
    (rep : ε → String) (part_no : Nat) :
    Nat → Nat → List PartEv × Option String
  | 0, _ => ([], none)
  | retries + 1, attempt =>
    match upload_func part_no attempt with
    | Attempt.success => ([PartEv.seek 0, PartEv.callUpload part_no attempt], none)
    | Attempt.failure e =>
      if retries = 0 then
        ([PartEv.seek 0, PartEv.callUpload part_no attempt],
          some (th ++ " " ++ rep e))
      else
        let rest := uploadPartAux upload_func th rep part_no retries (attempt + 1)
        (PartEv.seek 0 :: PartEv.callUpload part_no attempt :: rest.1, rest.2)

/-- Embedding of `upload_part` (lines 55-73): `num_retries = retries_left = 5`,
attempts start counting at 0. -/
def upload_part (upload_func : Nat → Nat → Attempt ε) (th : String)
    (rep : ε → String) (part_no : Nat) : List PartEv × Option String :=
  uploadPartAux upload_func th rep part_no 5 0

/-- the event trace of `k` consecutive attempts on part `part_no` starting
at attempt index `a`: each attempt is a seek to position 0 immediately
followed by the backend call. -/
def attemptTraceFrom (part_no : Nat) : Nat → Nat → List PartEv
  | _, 0 => []
  | a, k + 1 =>
    PartEv.seek 0 :: PartEv.callUpload part_no a :: attemptTraceFrom part_no (a + 1) k

/-- the event trace of `k` attempts on part `part_no` starting at attempt 0. -/
def attemptTrace (part_no k : Nat) : List PartEv :=
  attemptTraceFrom part_no 0 k

/-- backend behaviour that fails every attempt of every part with the same
error. -/
def alwaysFail : Nat → Nat → Attempt Nat := fun _ _ => Attempt.failure 7

/-- backend behaviour that succeeds on every attempt. -/
def alwaysOk : Nat → Nat → Attempt Nat := fun _ _ => Attempt.success

/-- backend behaviour that fails the first two attempts of a part and then
succeeds (a transient failure). -/
def transientF : Nat → Nat → Attempt Nat :=
  fun _ i => if i < 2 then Attempt.failure 0 else Attempt.success

/-- a fixed repr function for concrete error values. -/
def reprE : Nat → String := fun _ => "E"

/-! ## Upload Coordinator and Transaction Controller: `upload`
(s3upload.py lines 75-148) -/

/-- observable backend calls of one `upload` run. -/
inductive UEv where
  | lookup : UEv
  | initiate : UEv
  | part (pn : Nat) (ev : PartEv) : UEv
  | complete : UEv
  | cancel : UEv
deriving DecidableEq

/-- the exception propagated out of `upload`: the precondition `Exception`
of line 103, a `threading.ThreadError` returned by a worker and re-raised
by `check_errors`, or a backend exception (from `complete_upload` or
`cancel_upload`). -/
inductive Exc (ε : Type) where
  | keyExists : Exc ε
  | threadErr (msg : String) : Exc ε
  | backend (e : ε) : Exc ε
deriving DecidableEq

/-- how an `upload` call returns to its caller. -/
inductive UOutcome (ε : Type) where
  | ok : UOutcome ε
  | raised (exc : Exc ε) : UOutcome ε
deriving DecidableEq

/-- the backend collaborator of one `upload` call: whether `b.lookup(key)`
finds the key, the behaviour of `upload_part_from_file` per part and
attempt, and whether `complete_upload` / `cancel_upload` raise. -/
structure Backend (ε : Type) where
  keyExists : Bool
  upload_func : Nat → Nat → Attempt ε
  completeResult : Option ε
  cancelResult : Option ε

/-- Sequential embedding of the part-submission loop (lines 132-136)
combined with the workers: part numbers `pn, pn+1, ...` (k parts) are each
run through `upload_part`; the event trace is tagged with the part number
and the non-`None` results are collected in order, as the completion
callback `cb` puts them on `err_queue`.  This serialises the thread pool:
the run corresponds to the schedule in which errors reach the queue in
part order and the loop never aborts early, which leaves the
complete/cancel structure of the transaction unchanged. -/
def runPartsAux (f : Nat → Nat → Attempt ε) (th : String) (rep : ε → String) :
    Nat → Nat → List UEv × List String
  | _, 0 => ([], [])
  | pn, k + 1 =>
    let r := upload_part f th rep pn
    let rest := runPartsAux f th rep (pn + 1) k
    (r.1.map (UEv.part pn) ++ rest.1, r.2.toList ++ rest.2)

/-- Embedding of the `except:` block (lines 145-148): `cancel_upload()` is
called; if it raises, that exception propagates out of the handler
(Python replaces the in-flight exception), otherwise the bare `raise`
re-raises the original exception `orig`. -/
def exceptPath (cancelResult : Option ε) (tr : List UEv) (orig : Exc ε) :
    List UEv × UOutcome ε :=
  match cancelResult with
  | none => (tr ++ [UEv.cancel], UOutcome.raised orig)
  | some ce => (tr ++ [UEv.cancel], UOutcome.raised (Exc.backend ce))

/-- Embedding of `upload` (lines 75-148) over `numParts` chunks: the
pre-flight existence check (lines 102-103) runs before
`initiate_multipart_upload`; then the parts are submitted and joined,
`check_errors` (line 143) re-raises the first queued error if any,
otherwise `complete_upload` is called; every exception raised inside the
`try` block goes through the `except:` block. -/
def upload (b : Backend ε) (replace : Bool) (th : String) (rep : ε → String)
    (numParts : Nat) : List UEv × UOutcome ε :=
  if replace = false ∧ b.keyExists = true then
    ([UEv.lookup], UOutcome.raised Exc.keyExists)
  else
    let run := runPartsAux b.upload_func th rep 1 numParts
    let tr := UEv.lookup :: UEv.initiate :: run.1
    match run.2 with
    | e :: _ => exceptPath b.cancelResult tr (Exc.threadErr e)
    | [] =>
      match b.completeResult with
      | none => (tr ++ [UEv.complete], UOutcome.ok)
      | some ce => exceptPath b.cancelResult (tr ++ [UEv.complete]) (Exc.backend ce)

/-- backend on which every part and the transaction succeed. -/
def bOk : Backend Nat :=
  { keyExists := false, upload_func := alwaysOk,
    completeResult := none, cancelResult := none }

/-- backend on which every part succeeds but `complete_upload` raises. -/
def bComplFail : Backend Nat :=
  { keyExists := false, upload_func := alwaysOk,
    completeResult := some 3, cancelResult := none }

/-- backend on which every part attempt fails. -/
def bPartFail : Backend Nat :=
  { keyExists := false, upload_func := alwaysFail,
    completeResult := none, cancelResult := none }

/-- backend on which every part attempt fails and `cancel_upload` raises. -/
def bPartFailCancelFail : Backend Nat :=
  { keyExists := false, upload_func := alwaysFail,
    completeResult := none, cancelResult := some 9 }

/-- backend whose bucket already holds the target key. -/
def bExists : Backend Nat :=
  { keyExists := true, upload_func := alwaysOk,
    completeResult := none, cancelResult := none }

/-! ## Error Aggregator: `err_queue` (s3upload.py lines 106, 113-119, 127) -/

/-- Embedding of `err_queue.put(err)` (line 127): the `Queue` is unbounded
FIFO, so a report appends. -/
def report (q : List ε) (e : ε) : List ε := q ++ [e]

/-- Embedding of the non-blocking `err_queue.get(block=False)` inside
`check_errors` (lines 113-119): the oldest queued error, if any. -/
def checkErrorsQueue (q : List ε) : Option ε := q.head?

/-! ## In-flight counter and admission control (s3upload.py lines 106-136)

The submission loop and the worker completion callbacks run concurrently;
the model is a small-step transition system over all their interleavings. -/

/-- position of the submission loop (main thread) within one iteration of
the `for part_no, part in enumerate(iterable)` loop:

* `idle` — at the loop head, about to call `tpool.apply_async` (line 134);
* `preIncr` — `apply_async` has returned (the task is already running)
  but `upload.counter += 1` (line 135) has not executed yet;
* `polling` — inside `waiter()` (lines 121-124);
* `aborted` — `check_errors` raised inside `waiter()`, control left the
  loop for the `except:` block. -/
inductive Phase where
  | idle : Phase
  | preIncr : Phase
  | polling : Phase
  | aborted : Phase
deriving DecidableEq

/-- shared state of the coordinator: the main-thread position, the
process-wide `upload.counter` (an integer: the code never guards it
against going below zero), the number of parts not yet submitted, the
number of submitted tasks whose completion callback has not run yet, and
the number of errors sitting in `err_queue`. -/
structure LoopState where
  phase : Phase
  counter : Int
  unsubmitted : Nat
  inflight : Nat
  errs : Nat
deriving DecidableEq

/-- one atomic step of the coordinator or of a worker completion callback:

* `submit` — line 134: `apply_async` hands the task to the pool;
* `incr` — line 135: `with lock: upload.counter += 1`;
* `pollPass` — the `while upload.counter >= threads` guard of `waiter`
  observes `counter < threads` and the loop iteration finishes;
* `pollAbort` — the guard observes `counter >= threads` and `check_errors`
  finds a queued error and raises it;
* `workerOk` / `workerErr` — the callback `cb` of a finished task (lines
  126-128) optionally puts an error on `err_queue`, then decrements the
  counter.  A callback may run at any time after `submit`, in particular
  before the matching `incr`. -/
inductive Step (threads : Nat) : LoopState → LoopState → Prop where
  | submit (s : LoopState) (h : s.phase = Phase.idle) (hu : 0 < s.unsubmitted) :
      Step threads s
        { s with phase := Phase.preIncr, unsubmitted := s.unsubmitted - 1, inflight := s.inflight + 1 }
  | incr (s : LoopState) (h : s.phase = Phase.preIncr) :
      Step threads s { s with phase := Phase.polling, counter := s.counter + 1 }
  | pollPass (s : LoopState) (h : s.phase = Phase.polling)
      (hc : s.counter < (threads : Int)) :
      Step threads s { s with phase := Phase.idle }
  | pollAbort (s : LoopState) (h : s.phase = Phase.polling)
      (hc : (threads : Int) ≤ s.counter) (he : 0 < s.errs) :
      Step threads s { s with phase := Phase.aborted }
  | workerOk (s : LoopState) (hi : 0 < s.inflight) :
      Step threads s
        { s with inflight := s.inflight - 1, counter := s.counter - 1 }
  | workerErr (s : LoopState) (hi : 0 < s.inflight) :
      Step threads s
        { s with inflight := s.inflight - 1, counter := s.counter - 1, errs := s.errs + 1 }

/-- initial coordinator state for an upload of `n` parts:
`upload.counter = 0` (line 108), nothing submitted, empty error queue. -/
def initState (n : Nat) : LoopState :=
  { phase := Phase.idle, counter := 0, unsubmitted := n, inflight := 0, errs := 0 }

/-- the states a run with concurrency cap `threads` can reach from some
initial state. -/
inductive Reachable (threads : Nat) : LoopState → Prop where
  | init (n : Nat) : Reachable threads (initState n)
  | step (s t : LoopState) (hs : Reachable threads s) (hst : Step threads s t) :
      Reachable threads t

/-- what one evaluation of the `waiter` loop guard does next. -/
inductive WaiterAction where
  | raiseFirst : WaiterAction
  | sleepRepeat : WaiterAction
  | proceed : WaiterAction
deriving DecidableEq

/-- Embedding of one iteration of `waiter` (lines 121-124): only when
`upload.counter >= threads` does it call `check_errors` (raising the first
queued error if one is present, else sleeping and repeating); when the
counter is below `threads` it returns to the submission loop without any
error check. -/
def waiterStep (threads : Nat) (counter : Int) (errs : Nat) : WaiterAction :=
  if (threads : Int) ≤ counter then
    if 0 < errs then WaiterAction.raiseFirst else WaiterAction.sleepRepeat
  else WaiterAction.proceed

/-! Basic lemmas about the chunker. -/

theorem emitChunks_join (C : Nat) (buf : List α) :
    (emitChunks C buf).1.flatten ++ (emitChunks C buf).2 = buf := by
  rw [emitChunks]
  split
  · next h =>
    simp only [List.flatten_cons, List.append_assoc]
    rw [emitChunks_join C (buf.drop C)]
    exact List.take_append_drop C buf
  · simp
termination_by buf.length
decreasing_by
  simp only [List.length_drop]
  omega

theorem emitChunks_mem_length (C : Nat) (buf : List α) :
    ∀ p ∈ (emitChunks C buf).1, p.length = C := by
  rw [emitChunks]
  split
  · next h =>
    intro p hp
    simp only [List.mem_cons] at hp
    rcases hp with hp | hp
    · subst hp
      simp [List.length_take]
      omega
    · exact emitChunks_mem_length C (buf.drop C) p hp
  · intro p hp
    simp at hp
termination_by buf.length
decreasing_by
  simp only [List.length_drop]
  omega

theorem emitChunks_rest_lt (C : Nat) (hC : 0 < C) (buf : List α) :
    (emitChunks C buf).2.length < C := by
  rw [emitChunks]
  split
  · next h =>
    exact emitChunks_rest_lt C hC (buf.drop C)
  · next h =>
    simp only
    omega
termination_by buf.length
decreasing_by
  simp only [List.length_drop]
  omega

theorem collectLoop_join (C : Nat) (buf : List α) (ds : List (List α)) :
    (collectLoop C buf ds).flatten = buf ++ ds.flatten := by
  induction ds generalizing buf with
  | nil =>
    simp only [collectLoop, List.flatten_nil]
    split
    · simp
    · next h =>
      have : buf = [] := by
        cases buf with
        | nil => rfl
        | cons a l => simp at h
      simp [this]
  | cons d ds ih =>
    simp only [collectLoop, List.flatten_append, List.flatten_cons]
    rw [ih]
    rw [← List.append_assoc, emitChunks_join]
    simp [List.append_assoc]

theorem collectLoop_dropLast_length (C : Nat) (buf : List α)
    (ds : List (List α)) :
    ∀ p ∈ (collectLoop C buf ds).dropLast, p.length = C := by
  induction ds generalizing buf with
  | nil =>
    intro p hp
    simp only [collectLoop] at hp
    split at hp <;> simp at hp
  | cons d ds ih =>
    intro p hp
    simp only [collectLoop] at hp
    by_cases hrec : collectLoop C (emitChunks C (buf ++ d)).2 ds = []
    · rw [hrec, List.append_nil] at hp
      exact emitChunks_mem_length C (buf ++ d) p (List.mem_of_mem_dropLast hp)
    · rw [List.dropLast_append_of_ne_nil _ hrec] at hp
      rcases List.mem_append.mp hp with hp | hp
      · exact emitChunks_mem_length C (buf ++ d) p hp
      · exact ih (emitChunks C (buf ++ d)).2 p hp

theorem iterate_stream_join (C : Nat) (hC : 0 < C) (data : List α) :
    (iterate_stream C data).flatten = data := by
  rw [iterate_stream]
  split
  · next h =>
    simp only [List.flatten_cons]
    rw [iterate_stream_join C hC (data.drop C)]
    exact List.take_append_drop C data
  · next h =>
    simp only [List.flatten_nil]
    cases data with
    | nil => rfl
    | cons a l => exact absurd ⟨hC, by simp⟩ h
termination_by data.length
decreasing_by
  simp only [List.length_drop]
  omega

theorem iterate_stream_dropLast_length (C : Nat) (data : List α) :
    ∀ p ∈ (iterate_stream C data).dropLast, p.length = C := by
  rw [iterate_stream]
  split
  · next h =>
    intro p hp
    by_cases hrec : iterate_stream C (data.drop C) = []
    · rw [hrec] at hp
      simp at hp
    · rw [List.dropLast_cons_of_ne_nil hrec] at hp
      rcases List.mem_cons.mp hp with hp | hp
      · subst hp
        have hCle : C ≤ data.length := by
          by_contra hlt
          apply hrec
          rw [iterate_stream]
          rw [dif_neg]
          intro hcontra
          simp only [List.length_drop] at hcontra
          omega
        simp [List.length_take]
        omega
      · exact iterate_stream_dropLast_length C (data.drop C) p hp
  · intro p hp
    simp at hp
termination_by data.length
decreasing_by
  all_goals simp only [List.length_drop]
  all_goals omega

theorem enumFrom_map_incr_fst (l : List β) :
    ∀ n : Nat, (l.enumFrom n).map (fun p => p.1 + 1) = List.range' (n + 1) l.length := by
  induction l with
  | nil => intro n; rfl
  | cons a l ih =>
    intro n
    simp only [List.enumFrom, List.map_cons, List.length_cons, ih (n + 1)]
    rfl

/-- the part numbers assigned by the submission loop are the 1-based
contiguous range of the part count. -/
theorem enumerateParts_map_fst (l : List β) :
    (enumerateParts l).map Prod.fst = List.range' 1 l.length := by
  simp only [enumerateParts, List.enum_eq_enumFrom, List.map_map]
  have : (Prod.fst ∘ fun p : Nat × β => (p.1 + 1, p.2)) =
      (fun p : Nat × β => p.1 + 1) := by
    funext p
    rfl
  rw [this, enumFrom_map_incr_fst l 0]

/-- Claim C2: for every finite source of N total bytes and every positive
chunk size C, the Chunker yields a finite sequence of parts whose
concatenation is exactly the source content (hence whose byte lengths sum
to N), whose part numbers as assigned by the submission loop form the
contiguous sequence 1..k in source order, and in which every part except
the last has length exactly C (hence at least C); in the fragment path
each non-final part is exactly the first C buffered bytes by definition of
`emitChunks`. -/
theorem chunker_spec (C : Nat) (hC : 0 < C) (src : Source α) :
    (data_collector C src).flatten = sourceBytes src ∧
    ((data_collector C src).map List.length).sum = (sourceBytes src).length ∧
    (enumerateParts (data_collector C src)).map Prod.fst =
      List.range' 1 (data_collector C src).length ∧
    ∀ p ∈ (data_collector C src).dropLast, p.length = C := by
  have hflat : (data_collector C src).flatten = sourceBytes src := by
    cases src with
    | stream d => exact iterate_stream_join C hC d
    | fragments fs =>
      simp only [data_collector, sourceBytes]
      rw [collectLoop_join]
      rfl
  refine ⟨hflat, ?_, enumerateParts_map_fst _, ?_⟩
  · rw [← hflat, List.length_flatten]
  · cases src with
    | stream d => exact iterate_stream_dropLast_length C d
    | fragments fs => exact collectLoop_dropLast_length C [] fs

/-- witness for Claim C2 at a concrete input: two fragments of sizes 3 and
2 with chunk size 2 yield parts [[0,1],[2,3],[4]]. -/
theorem chunker_spec_witness :
    0 < 2 ∧
    ((data_collector 2 srcW).flatten = sourceBytes srcW ∧
    ((data_collector 2 srcW).map List.length).sum = (sourceBytes srcW).length ∧
    (enumerateParts (data_collector 2 srcW)).map Prod.fst =
      List.range' 1 (data_collector 2 srcW).length ∧
    ∀ p ∈ (data_collector 2 srcW).dropLast, p.length = 2) :=
  ⟨by decide, chunker_spec 2 (by decide) srcW⟩

/-! Lemmas about the Part Uploader. -/

theorem uploadPartAux_trace (f : Nat → Nat → Attempt ε) (th : String)
    (rep : ε → String) (pn : Nat) :
    ∀ r a, ∃ k, k ≤ r ∧ (uploadPartAux f th rep pn r a).1 = attemptTraceFrom pn a k := by
  intro r
  induction r with
  | zero => exact fun a => ⟨0, Nat.le_refl 0, rfl⟩
  | succ r ih =>
    intro a
    cases hf : f pn a with
    | success =>
      refine ⟨1, by omega, ?_⟩
      simp [uploadPartAux, hf, attemptTraceFrom]
    | failure e =>
      by_cases hr : r = 0
      · subst hr
        refine ⟨1, by omega, ?_⟩
        simp [uploadPartAux, hf, attemptTraceFrom]
      · obtain ⟨k, hk, htr⟩ := ih (a + 1)
        refine ⟨k + 1, by omega, ?_⟩
        simp [uploadPartAux, hf, hr, attemptTraceFrom, htr]

theorem uploadPartAux_success (f : Nat → Nat → Attempt ε) (th : String)
    (rep : ε → String) (pn : Nat) :
    ∀ r a j, j < r → (∀ i, i < j → f pn (a + i) ≠ Attempt.success) →
      f pn (a + j) = Attempt.success →
      (uploadPartAux f th rep pn r a).2 = none := by
  intro r
  induction r with
  | zero => intro a j hj; omega
  | succ r ih =>
    intro a j hj hmin hsucc
    cases hf : f pn a with
    | success => simp [uploadPartAux, hf]
    | failure e =>
      have hjpos : 0 < j := by
        rcases Nat.eq_zero_or_pos j with h0 | h0
        · subst h0
          rw [Nat.add_zero] at hsucc
          rw [hsucc] at hf
          cases hf
        · exact h0
      have hrpos : r ≠ 0 := by
        omega
      simp only [uploadPartAux, hf, if_neg hrpos]
      apply ih (a + 1) (j - 1)
      · omega
      · intro i hi
        have : a + 1 + i = a + (i + 1) := by omega
        rw [this]
        exact hmin (i + 1) (by omega)
      · have : a + 1 + (j - 1) = a + j := by omega
        rw [this]
        exact hsucc

/-- Claim C3: for every part, `upload_part` makes at most 5 attempts of the
backend upload function, rewinding the part buffer to position zero
immediately before every attempt (the trace is exactly `k ≤ 5` repetitions
of seek-then-call); and if the backend call fails fewer than 5 consecutive
times and then succeeds, `upload_part` returns `None` — the transient
failure is never surfaced to the coordinator. -/
theorem upload_part_retry_spec (f : Nat → Nat → Attempt ε) (th : String)
    (rep : ε → String) (pn : Nat) :
    (∃ k, k ≤ 5 ∧ (upload_part f th rep pn).1 = attemptTrace pn k) ∧
    (∀ j, j < 5 → (∀ i, i < j → f pn i ≠ Attempt.success) →
      f pn j = Attempt.success → (upload_part f th rep pn).2 = none) := by
  constructor
  · exact uploadPartAux_trace f th rep pn 5 0
  · intro j hj hmin hsucc
    apply uploadPartAux_success f th rep pn 5 0 j hj
    · intro i hi
      rw [Nat.zero_add]
      exact hmin i hi
    · rw [Nat.zero_add]
      exact hsucc

/-- witness for Claim C3: a part whose backend call fails twice and then
succeeds is uploaded with result `None` and a trace of at most 5
seek-then-call attempts. -/
theorem upload_part_retry_spec_witness :
    (2 < 5 ∧ (∀ i, i < 2 → transientF 1 i ≠ Attempt.success) ∧
      transientF 1 2 = Attempt.success) ∧
    (upload_part transientF "thr" reprE 1).2 = none ∧
    (∃ k, k ≤ 5 ∧ (upload_part transientF "thr" reprE 1).1 = attemptTrace 1 k) :=
  ⟨⟨by decide, by decide, by decide⟩,
    (upload_part_retry_spec transientF "thr" reprE 1).2 2 (by decide)
      (by decide) (by decide),
    (upload_part_retry_spec transientF "thr" reprE 1).1⟩

/-- Claim C6 (amended): when a part exhausts all 5 attempts, `upload_part`
produces a fatal `ThreadError` value carrying the identity of the worker
thread and the repr of the last underlying backend error — but not the
part number, which the source never writes into the error — and this
error is returned as a value (the `try`/`except` absorbs every backend
exception, so `upload_part` never raises). -/
theorem upload_part_exhaustion_error (f : Nat → Nat → Attempt ε)
    (th : String) (rep : ε → String) (pn : Nat)
    (hfail : ∀ i, i < 5 → f pn i ≠ Attempt.success)
    (e4 : ε) (h4 : f pn 4 = Attempt.failure e4) :
    (upload_part f th rep pn).2 = some (th ++ " " ++ rep e4) := by
  have hform : ∀ i, i < 5 → ∃ e, f pn i = Attempt.failure e := by
    intro i hi
    cases hf : f pn i with
    | success => exact absurd hf (hfail i hi)
    | failure e => exact ⟨e, rfl⟩
  obtain ⟨e0, hf0⟩ := hform 0 (by omega)
  obtain ⟨e1, hf1⟩ := hform 1 (by omega)
  obtain ⟨e2, hf2⟩ := hform 2 (by omega)
  obtain ⟨e3, hf3⟩ := hform 3 (by omega)
  simp [upload_part, uploadPartAux, hf0, hf1, hf2, hf3, h4]

/-- Claim C6 counterexample: the claim says the fatal error value carries
the part number; but with the same backend error the calls for part 1 and
part 2 return the *same* error value (the message is built only from the
thread repr and the exception repr), so the error does not carry the part
number. -/
theorem upload_part_error_without_part_no :
    (upload_part alwaysFail "thr" reprE 1).2 = (upload_part alwaysFail "thr" reprE 2).2 ∧
    (upload_part alwaysFail "thr" reprE 1).2 = some ("thr" ++ " " ++ "E") := by
  exact ⟨rfl, rfl⟩

/-- witness for Claim C6: at a backend that fails every attempt with error
7, the returned value is the ThreadError message for the last error. -/
theorem upload_part_exhaustion_error_witness :
    (∀ i, i < 5 → alwaysFail 3 i ≠ Attempt.success) ∧
    alwaysFail 3 4 = Attempt.failure 7 ∧
    (upload_part alwaysFail "w" reprE 3).2 = some ("w" ++ " " ++ reprE 7) :=
  ⟨by decide, by decide,
    upload_part_exhaustion_error alwaysFail "w" reprE 3 (by decide) 7 (by decide)⟩

/-! Lemmas about the upload run. -/

theorem exceptPath_trace (cr : Option ε) (tr : List UEv) (o : Exc ε) :
    (exceptPath cr tr o).1 = tr ++ [UEv.cancel] := by
  cases cr <;> rfl

theorem exceptPath_outcome_none (tr : List UEv) (o : Exc ε) :
    (exceptPath (none : Option ε) tr o).2 = UOutcome.raised o := rfl

theorem exceptPath_outcome_some (ce : ε) (tr : List UEv) (o : Exc ε) :
    (exceptPath (some ce) tr o).2 = UOutcome.raised (Exc.backend ce) := rfl

theorem runPartsAux_not_mem (f : Nat → Nat → Attempt ε) (th : String)
    (rep : ε → String) (e : UEv) (he : ∀ q pe, e ≠ UEv.part q pe) :
    ∀ k pn, e ∉ (runPartsAux f th rep pn k).1 := by
  intro k
  induction k with
  | zero => intro pn; simp [runPartsAux]
  | succ k ih =>
    intro pn
    simp only [runPartsAux, List.mem_append, List.mem_map]
    rintro (⟨pe, _, hpe⟩ | hmem)
    · exact he pn pe hpe.symm
    · exact ih (pn + 1) hmem

theorem runPartsAux_errs_eq_nil (f : Nat → Nat → Attempt ε) (th : String)
    (rep : ε → String) :
    ∀ k pn, (runPartsAux f th rep pn k).2 = [] ↔
      ∀ i, i < k → (upload_part f th rep (pn + i)).2 = none := by
  intro k
  induction k with
  | zero =>
    intro pn
    simp [runPartsAux]
  | succ k ih =>
    intro pn
    simp only [runPartsAux, List.append_eq_nil]
    constructor
    · rintro ⟨hhd, htl⟩
      intro i hi
      rcases Nat.eq_zero_or_pos i with h0 | h0
      · subst h0
        rw [Nat.add_zero]
        cases hres : (upload_part f th rep pn).2 with
        | none => rfl
        | some e => rw [hres] at hhd; cases hhd
      · have : pn + i = (pn + 1) + (i - 1) := by omega
        rw [this]
        exact (ih (pn + 1)).mp htl (i - 1) (by omega)
    · intro hall
      constructor
      · have := hall 0 (by omega)
        rw [Nat.add_zero] at this
        rw [this]
        rfl
      · apply (ih (pn + 1)).mpr
        intro i hi
        have : pn + 1 + i = pn + (i + 1) := by omega
        rw [this]
        exact hall (i + 1) (by omega)

theorem upload_run_eq (b : Backend ε) (replace : Bool) (th : String)
    (rep : ε → String) (n : Nat)
    (hpre : ¬(replace = false ∧ b.keyExists = true)) :
    upload b replace th rep n =
      match (runPartsAux b.upload_func th rep 1 n).2 with
      | e :: _ =>
        exceptPath b.cancelResult
          (UEv.lookup :: UEv.initiate :: (runPartsAux b.upload_func th rep 1 n).1)
          (Exc.threadErr e)
      | [] =>
        match b.completeResult with
        | none =>
          ((UEv.lookup :: UEv.initiate :: (runPartsAux b.upload_func th rep 1 n).1)
            ++ [UEv.complete], UOutcome.ok)
        | some ce =>
          exceptPath b.cancelResult
            ((UEv.lookup :: UEv.initiate :: (runPartsAux b.upload_func th rep 1 n).1)
              ++ [UEv.complete]) (Exc.backend ce) := by
  simp only [upload, if_neg hpre]

theorem runPartsAux_count_complete (f : Nat → Nat → Attempt ε) (th : String)
    (rep : ε → String) (k pn : Nat) :
    ((runPartsAux f th rep pn k).1).count UEv.complete = 0 :=
  List.count_eq_zero_of_not_mem
    (runPartsAux_not_mem f th rep UEv.complete (fun _ _ h => UEv.noConfusion h) k pn)

theorem runPartsAux_count_cancel (f : Nat → Nat → Attempt ε) (th : String)
    (rep : ε → String) (k pn : Nat) :
    ((runPartsAux f th rep pn k).1).count UEv.cancel = 0 :=
  List.count_eq_zero_of_not_mem
    (runPartsAux_not_mem f th rep UEv.cancel (fun _ _ h => UEv.noConfusion h) k pn)

/-- Claim C1 (amended): past the pre-flight existence check, every run of
`upload` invokes at least one of `complete_upload`/`cancel_upload` and each
at most once: if every part succeeds and `complete_upload` itself succeeds,
`complete_upload` is called exactly once and `cancel_upload` never; if any
part fails all 5 attempts, `cancel_upload` is called exactly once and
`complete_upload` never; both are invoked (each once) exactly when every
part succeeds but the `complete_upload` call itself raises. -/
theorem upload_exactly_one_finalizer (b : Backend ε) (replace : Bool)
    (th : String) (rep : ε → String) (n : Nat)
    (hpre : ¬(replace = false ∧ b.keyExists = true)) :
    ((∀ pn, 1 ≤ pn → pn ≤ n → (upload_part b.upload_func th rep pn).2 = none) →
      b.completeResult = none →
      (upload b replace th rep n).1.count UEv.complete = 1 ∧
      (upload b replace th rep n).1.count UEv.cancel = 0) ∧
    ((∀ pn, 1 ≤ pn → pn ≤ n → (upload_part b.upload_func th rep pn).2 = none) →
      b.completeResult ≠ none →
      (upload b replace th rep n).1.count UEv.complete = 1 ∧
      (upload b replace th rep n).1.count UEv.cancel = 1) ∧
    ((∃ pn, 1 ≤ pn ∧ pn ≤ n ∧ (upload_part b.upload_func th rep pn).2 ≠ none) →
      (upload b replace th rep n).1.count UEv.complete = 0 ∧
      (upload b replace th rep n).1.count UEv.cancel = 1) := by
  have hmain := upload_run_eq b replace th rep n hpre
  have hpc := runPartsAux_count_complete b.upload_func th rep n 1
  have hpcan := runPartsAux_count_cancel b.upload_func th rep n 1
  refine ⟨?_, ?_, ?_⟩
  · intro hall hcompl
    have herrs : (runPartsAux b.upload_func th rep 1 n).2 = [] := by
      apply (runPartsAux_errs_eq_nil b.upload_func th rep n 1).mpr
      intro i hi
      exact hall (1 + i) (by omega) (by omega)
    rw [hmain, herrs, hcompl]
    constructor
    · simp [List.count_append, List.count_cons, hpc]
    · simp [List.count_append, List.count_cons, hpcan]
  · intro hall hcompl
    have herrs : (runPartsAux b.upload_func th rep 1 n).2 = [] := by
      apply (runPartsAux_errs_eq_nil b.upload_func th rep n 1).mpr
      intro i hi
      exact hall (1 + i) (by omega) (by omega)
    cases hc : b.completeResult with
    | none => exact absurd hc hcompl
    | some ce =>
      rw [hmain, herrs, hc]
      rw [exceptPath_trace]
      constructor
      · simp [List.count_append, List.count_cons, hpc]
      · simp [List.count_append, List.count_cons, hpcan]
  · rintro ⟨pn, h1, h2, hfail⟩
    have herrs : (runPartsAux b.upload_func th rep 1 n).2 ≠ [] := by
      intro hnil
      apply hfail
      have := (runPartsAux_errs_eq_nil b.upload_func th rep n 1).mp hnil (pn - 1) (by omega)
      have heq : 1 + (pn - 1) = pn := by omega
      rw [heq] at this
      exact this
    cases he : (runPartsAux b.upload_func th rep 1 n).2 with
    | nil => exact absurd he herrs
    | cons e rest =>
      rw [hmain, he]
      rw [exceptPath_trace]
      constructor
      · simp [List.count_append, List.count_cons, hpc]
      · simp [List.count_append, List.count_cons, hpcan]

/-- Claim C1 counterexample: on a backend where the single part succeeds
but `complete_upload` itself raises, one `upload` run invokes *both*
`complete_upload` and `cancel_upload` — refuting the claim that there is
no outcome in which both are invoked. -/
theorem upload_both_finalizers_invoked :
    (upload bComplFail true "t" reprE 1).1.count UEv.complete = 1 ∧
    (upload bComplFail true "t" reprE 1).1.count UEv.cancel = 1 := by
  constructor <;> rfl

/-- witness for Claim C1 at a backend where the single part and the commit
succeed: `complete_upload` is called exactly once, `cancel_upload` never. -/
theorem upload_exactly_one_finalizer_witness :
    (¬(true = false ∧ bOk.keyExists = true)) ∧
    (upload bOk true "t" reprE 1).1.count UEv.complete = 1 ∧
    (upload bOk true "t" reprE 1).1.count UEv.cancel = 0 :=
  ⟨by decide,
    (upload_exactly_one_finalizer bOk true "t" reprE 1 (by decide)).1
      (fun pn h1 h2 => by
        have : pn = 1 := by omega
        subst this
        rfl)
      rfl⟩

/-- Claim C5: calling `upload` with `replace = false` against a key that
already exists raises the precondition exception immediately: the trace
holds only the `lookup` call — no `initiate_multipart_upload`, no part
upload, no `complete_upload`, no `cancel_upload`. -/
theorem upload_precondition_halts (b : Backend ε) (replace : Bool)
    (th : String) (rep : ε → String) (n : Nat)
    (hrep : replace = false) (hex : b.keyExists = true) :
    upload b replace th rep n = ([UEv.lookup], UOutcome.raised Exc.keyExists) ∧
    UEv.initiate ∉ (upload b replace th rep n).1 ∧
    UEv.complete ∉ (upload b replace th rep n).1 ∧
    UEv.cancel ∉ (upload b replace th rep n).1 ∧
    ∀ pn pe, UEv.part pn pe ∉ (upload b replace th rep n).1 := by
  have h : upload b replace th rep n = ([UEv.lookup], UOutcome.raised Exc.keyExists) := by
    simp [upload, hrep, hex]
  refine ⟨h, ?_, ?_, ?_, ?_⟩
  · rw [h]; simp
  · rw [h]; simp
  · rw [h]; simp
  · intro pn pe; rw [h]; simp

/-- witness for Claim C5 at a backend whose bucket already holds the key. -/
theorem upload_precondition_halts_witness :
    ((false : Bool) = false ∧ bExists.keyExists = true) ∧
    upload bExists false "t" reprE 2 = ([UEv.lookup], UOutcome.raised Exc.keyExists) ∧
    UEv.initiate ∉ (upload bExists false "t" reprE 2).1 :=
  ⟨by decide,
    (upload_precondition_halts bExists false "t" reprE 2 rfl rfl).1,
    (upload_precondition_halts bExists false "t" reprE 2 rfl rfl).2.1⟩

/-- Claim C7 (amended): whenever a part failure triggers the abort path,
`cancel_upload` is attempted exactly once and `complete_upload` is never
called; if the `cancel_upload` call itself succeeds the original fatal
error is the one propagated, but if `cancel_upload` raises, *its*
exception propagates out of the `except:` block and replaces the original
error (the bare `raise` is never reached). -/
theorem upload_abort_once (b : Backend ε) (replace : Bool) (th : String)
    (rep : ε → String) (n : Nat)
    (hpre : ¬(replace = false ∧ b.keyExists = true))
    (e : String) (es : List String)
    (herr : (runPartsAux b.upload_func th rep 1 n).2 = e :: es) :
    (upload b replace th rep n).1.count UEv.cancel = 1 ∧
    (upload b replace th rep n).1.count UEv.complete = 0 ∧
    (b.cancelResult = none →
      (upload b replace th rep n).2 = UOutcome.raised (Exc.threadErr e)) ∧
    (∀ ce, b.cancelResult = some ce →
      (upload b replace th rep n).2 = UOutcome.raised (Exc.backend ce)) := by
  have hmain := upload_run_eq b replace th rep n hpre
  have hpc := runPartsAux_count_complete b.upload_func th rep n 1
  have hpcan := runPartsAux_count_cancel b.upload_func th rep n 1
  rw [hmain, herr]
  refine ⟨?_, ?_, ?_, ?_⟩
  · rw [exceptPath_trace]
    simp [List.count_append, List.count_cons, hpcan]
  · rw [exceptPath_trace]
    simp [List.count_append, List.count_cons, hpc]
  · intro hcan
    rw [hcan]
    rfl
  · intro ce hcan
    rw [hcan]
    rfl

/-- Claim C7 counterexample: the single part exhausts its retries with
original error message `"t E"`, and `cancel_upload` itself raises error 9;
the exception propagated to the caller is the backend error from
`cancel_upload`, not the original `ThreadError` — the abort failure masks
the original error. -/
theorem upload_abort_error_masks_original :
    (runPartsAux bPartFailCancelFail.upload_func "t" reprE 1 1).2 = ["t" ++ " " ++ "E"] ∧
    (upload bPartFailCancelFail true "t" reprE 1).2 = UOutcome.raised (Exc.backend 9) ∧
    (upload bPartFailCancelFail true "t" reprE 1).2 ≠
      UOutcome.raised (Exc.threadErr ("t" ++ " " ++ "E")) := by
  refine ⟨rfl, rfl, ?_⟩
  intro h
  cases h

/-- witness for Claim C7 at a backend whose single part fails all attempts
and whose `cancel_upload` succeeds: cancel is called once, complete never,
and the original `ThreadError` is propagated. -/
theorem upload_abort_once_witness :
    (¬((true : Bool) = false ∧ bPartFail.keyExists = true)) ∧
    ((runPartsAux bPartFail.upload_func "t" reprE 1 1).2 = ["t" ++ " " ++ "E"]) ∧
    (upload bPartFail true "t" reprE 1).1.count UEv.cancel = 1 ∧
    (upload bPartFail true "t" reprE 1).1.count UEv.complete = 0 ∧
    (upload bPartFail true "t" reprE 1).2 =
      UOutcome.raised (Exc.threadErr ("t" ++ " " ++ "E")) := by
  have h := upload_abort_once bPartFail true "t" reprE 1 (by decide)
    ("t" ++ " " ++ "E") [] rfl
  exact ⟨by decide, rfl, h.1, h.2.1, h.2.2.1 rfl⟩

/-- Claim C10: if all parts succeed but the `complete_upload` call itself
raises, `upload` still calls `cancel_upload` (exactly once, after the
`complete_upload` call) and — when the cancel succeeds — re-raises the
commit failure to the caller: a commit failure takes the abort path
rather than leaving the transaction as-is. -/
theorem upload_commit_failure_takes_abort_path (b : Backend ε)
    (replace : Bool) (th : String) (rep : ε → String) (n : Nat)
    (hpre : ¬(replace = false ∧ b.keyExists = true))
    (hall : ∀ pn, 1 ≤ pn → pn ≤ n → (upload_part b.upload_func th rep pn).2 = none)
    (ce : ε) (hc : b.completeResult = some ce) :
    (upload b replace th rep n).1 =
      UEv.lookup :: UEv.initiate :: (runPartsAux b.upload_func th rep 1 n).1
        ++ [UEv.complete, UEv.cancel] ∧
    (upload b replace th rep n).1.count UEv.cancel = 1 ∧
    (b.cancelResult = none →
      (upload b replace th rep n).2 = UOutcome.raised (Exc.backend ce)) := by
  have hmain := upload_run_eq b replace th rep n hpre
  have hpcan := runPartsAux_count_cancel b.upload_func th rep n 1
  have herrs : (runPartsAux b.upload_func th rep 1 n).2 = [] := by
    apply (runPartsAux_errs_eq_nil b.upload_func th rep n 1).mpr
    intro i hi
    exact hall (1 + i) (by omega) (by omega)
  rw [hmain, herrs, hc]
  refine ⟨?_, ?_, ?_⟩
  · rw [exceptPath_trace]
    simp
  · rw [exceptPath_trace]
    simp [List.count_append, List.count_cons, hpcan]
  · intro hcan
    rw [hcan]
    rfl

/-- witness for Claim C10 at a backend where the single part succeeds,
`complete_upload` raises error 3 and `cancel_upload` succeeds. -/
theorem upload_commit_failure_witness :
    (¬((true : Bool) = false ∧ bComplFail.keyExists = true)) ∧
    bComplFail.completeResult = some 3 ∧
    (upload bComplFail true "t" reprE 1).1 =
      UEv.lookup :: UEv.initiate ::
        (runPartsAux bComplFail.upload_func "t" reprE 1 1).1
        ++ [UEv.complete, UEv.cancel] ∧
    (upload bComplFail true "t" reprE 1).2 = UOutcome.raised (Exc.backend 3) := by
  have h := upload_commit_failure_takes_abort_path bComplFail true "t" reprE 1
    (by decide)
    (fun pn h1 h2 => by
      have : pn = 1 := by omega
      subst this
      rfl)
    3 rfl
  exact ⟨by decide, rfl, h.1, h.2.2 rfl⟩

/-! Error Aggregator theorems. -/

theorem foldl_report_eq (q es : List ε) : es.foldl report q = q ++ es := by
  induction es generalizing q with
  | nil => simp
  | cons e es ih =>
    simp only [List.foldl_cons, report, ih, List.append_assoc, List.cons_append,
      List.nil_append]

/-- Claim C8 (amended): the error channel is an unbounded FIFO queue, not a
single discarding slot: every reported error is retained in report order,
and the error the coordinator drains (`get(block=False)`) is always the
*first* one reported — so first-error-wins holds for what propagates, even
though later errors are kept in the queue rather than discarded. -/
theorem err_queue_first_reported_wins (es : List ε) :
    es.foldl report [] = es ∧
    checkErrorsQueue (es.foldl report []) = es.head? := by
  have h := foldl_report_eq ([] : List ε) es
  rw [List.nil_append] at h
  exact ⟨h, by rw [h]; rfl⟩

/-- Claim C8 counterexample: after two errors are reported the queue holds
*two* entries and the second error is still present — the slot does not
hold at most one error and does not discard subsequent reports. -/
theorem err_queue_not_single_slot :
    report (report ([] : List Nat) 1) 2 = [1, 2] ∧
    (report (report ([] : List Nat) 1) 2).length = 2 ∧
    2 ∈ report (report ([] : List Nat) 1) 2 ∧
    checkErrorsQueue (report (report ([] : List Nat) 1) 2) = some 1 := by
  refine ⟨rfl, rfl, ?_, rfl⟩
  decide

/-! Counter and admission-control theorems. -/

/-- the strengthened invariant for the upper bound: whenever the main
thread sits at the loop head or between `apply_async` and the increment,
the counter is strictly below `threads` (the previous `waiter` ensured it
and callbacks only decrease it), and the counter never exceeds `threads`. -/
def CounterInv (threads : Nat) (s : LoopState) : Prop :=
  s.counter ≤ (threads : Int) ∧
  ((s.phase = Phase.idle ∨ s.phase = Phase.preIncr) → s.counter < (threads : Int))

theorem counterInv_init (threads : Nat) (ht : 1 ≤ threads) (n : Nat) :
    CounterInv threads (initState n) := by
  constructor
  · show (0 : Int) ≤ (threads : Int)
    omega
  · intro _
    show (0 : Int) < (threads : Int)
    omega

theorem counterInv_step (threads : Nat) (s t : LoopState)
    (hst : Step threads s t) (hs : CounterInv threads s) :
    CounterInv threads t := by
  obtain ⟨hle, hlt⟩ := hs
  cases hst with
  | submit h hu =>
    exact ⟨hle, fun _ => hlt (Or.inl h)⟩
  | incr h =>
    constructor
    · show s.counter + 1 ≤ (threads : Int)
      have := hlt (Or.inr h)
      omega
    · intro hph
      rcases hph with hph | hph <;> exact Phase.noConfusion hph
  | pollPass h hc =>
    exact ⟨hle, fun _ => hc⟩
  | pollAbort h hc he =>
    refine ⟨hle, ?_⟩
    intro hph
    rcases hph with hph | hph <;> exact Phase.noConfusion hph
  | workerOk hi =>
    constructor
    · show s.counter - 1 ≤ (threads : Int)
      omega
    · intro hph
      have := hlt hph
      show s.counter - 1 < (threads : Int)
      omega
  | workerErr hi =>
    constructor
    · show s.counter - 1 ≤ (threads : Int)
      omega
    · intro hph
      have := hlt hph
      show s.counter - 1 < (threads : Int)
      omega

theorem counterInv_reachable (threads : Nat) (ht : 1 ≤ threads)
    (s : LoopState) (hs : Reachable threads s) : CounterInv threads s := by
  induction hs with
  | init n => exact counterInv_init threads ht n
  | step s t hs hst ih => exact counterInv_step threads s t hst ih

/-- Claim C4 (amended): in every interleaving of the submission loop and
the worker callbacks, the in-flight counter never exceeds the configured
`threads` value; the lower bound `0 ≤ counter` does *not* hold in every
interleaving (see the counterexample), because a task's completion
callback can decrement the counter before the submission loop executes the
matching increment. -/
theorem counter_never_exceeds_threads (threads : Nat) (ht : 1 ≤ threads)
    (s : LoopState) (hs : Reachable threads s) :
    s.counter ≤ (threads : Int) :=
  (counterInv_reachable threads ht s hs).1

/-- witness for Claim C4: the initial state of a 3-part run with 2 threads
is reachable and satisfies the bound. -/
theorem counter_never_exceeds_threads_witness :
    1 ≤ 2 ∧ Reachable 2 (initState 3) ∧ (initState 3).counter ≤ ((2 : Nat) : Int) :=
  ⟨by decide, Reachable.init 3,
    counter_never_exceeds_threads 2 (by decide) (initState 3) (Reachable.init 3)⟩

/-- Claim C4 counterexample: with `threads = 1` and one part, the schedule
submit-task, worker-completes-and-decrements, (increment still pending)
drives the counter to -1: the callback of the freshly submitted task runs
before the loop's `upload.counter += 1`.  The state is reachable and its
counter is negative, refuting `0 ≤ counter`. -/
theorem counter_goes_negative :
    Reachable 1 { phase := Phase.preIncr, counter := -1, unsubmitted := 0,
                  inflight := 0, errs := 0 } ∧
    ({ phase := Phase.preIncr, counter := -1, unsubmitted := 0,
       inflight := 0, errs := 0 } : LoopState).counter < 0 := by
  constructor
  · have h0 : Reachable 1 (initState 1) := Reachable.init 1
    have h1 : Step 1 (initState 1)
        { phase := Phase.preIncr, counter := 0, unsubmitted := 0,
          inflight := 1, errs := 0 } := by
      have := @Step.submit 1 (initState 1) rfl (by decide)
      simpa [initState] using this
    have h2 : Step 1
        { phase := Phase.preIncr, counter := 0, unsubmitted := 0,
          inflight := 1, errs := 0 }
        { phase := Phase.preIncr, counter := -1, unsubmitted := 0,
          inflight := 0, errs := 0 } := by
      have := @Step.workerOk 1
        { phase := Phase.preIncr, counter := 0, unsubmitted := 0,
          inflight := 1, errs := 0 } (by decide)
      simpa using this
    exact Reachable.step _ _ (Reachable.step _ _ h0 h1) h2
  · decide

/-- Claim C9 (amended): the submission loop checks the Error Aggregator on
every poll iteration only while the counter is at capacity — there it
raises the first queued error on the very next poll — but when the counter
is below `threads` the `waiter` returns without any error check (even when
errors are queued), and from a polling state at capacity with a queued
error the abort transition is what the loop takes; consequently an error
reported while the loop never sits at capacity is observed only at the
final `check_errors` after all parts have been queued. -/
theorem waiter_checks_only_at_capacity (threads : Nat) (counter : Int)
    (errs : Nat) :
    ((threads : Int) ≤ counter → 0 < errs →
      waiterStep threads counter errs = WaiterAction.raiseFirst) ∧
    (counter < (threads : Int) →
      waiterStep threads counter errs = WaiterAction.proceed) ∧
    (∀ s : LoopState, s.phase = Phase.polling → (threads : Int) ≤ s.counter →
      0 < s.errs → Step threads s { s with phase := Phase.aborted }) := by
  refine ⟨?_, ?_, ?_⟩
  · intro hc he
    simp [waiterStep, hc, he]
  · intro hc
    rw [waiterStep, if_neg (by omega)]
  · intro s hph hc he
    exact Step.pollAbort s hph hc he

/-- witness for Claim C9: at capacity (counter 2 of 2 threads) with one
queued error the next poll raises it; below capacity (counter 0) the
waiter proceeds even though an error is queued. -/
theorem waiter_checks_only_at_capacity_witness :
    (((2 : Nat) : Int) ≤ 2 ∧ 0 < 1 ∧ waiterStep 2 2 1 = WaiterAction.raiseFirst) ∧
    ((0 : Int) < ((2 : Nat) : Int) ∧ waiterStep 2 0 1 = WaiterAction.proceed) :=
  ⟨⟨by decide, by decide,
      (waiter_checks_only_at_capacity 2 2 1).1 (by decide) (by decide)⟩,
    ⟨by decide,
      (waiter_checks_only_at_capacity 2 0 1).2.1 (by decide)⟩⟩

/-- Claim C9 counterexample: with 2 threads and 2 parts, a worker failure
reported after the first submission leaves the counter below capacity, so
the loop passes `waiter` without checking errors and submits the final
part: a state with a queued error and a part still unsubmitted is
reachable, its next step is the *submission* of that part (not an abort),
and afterwards every part has been queued while the loop never aborted —
the fatal error was not observed before all parts were queued. -/
theorem submission_continues_despite_error :
    Reachable 2 { phase := Phase.idle, counter := 0, unsubmitted := 1,
                  inflight := 0, errs := 1 } ∧
    ({ phase := Phase.idle, counter := 0, unsubmitted := 1,
       inflight := 0, errs := 1 } : LoopState).errs = 1 ∧
    Step 2 { phase := Phase.idle, counter := 0, unsubmitted := 1,
             inflight := 0, errs := 1 }
           { phase := Phase.preIncr, counter := 0, unsubmitted := 0,
             inflight := 1, errs := 1 } ∧
    ({ phase := Phase.preIncr, counter := 0, unsubmitted := 0,
       inflight := 1, errs := 1 } : LoopState).unsubmitted = 0 ∧
    ({ phase := Phase.preIncr, counter := 0, unsubmitted := 0,
       inflight := 1, errs := 1 } : LoopState).phase ≠ Phase.aborted := by
  have h0 : Reachable 2 (initState 2) := Reachable.init 2
  have h1 : Step 2 (initState 2)
      { phase := Phase.preIncr, counter := 0, unsubmitted := 1,
        inflight := 1, errs := 0 } := by
    have := @Step.submit 2 (initState 2) rfl (by decide)
    simpa [initState] using this
  have h2 : Step 2
      { phase := Phase.preIncr, counter := 0, unsubmitted := 1,
        inflight := 1, errs := 0 }
      { phase := Phase.polling, counter := 1, unsubmitted := 1,
        inflight := 1, errs := 0 } := by
    have := @Step.incr 2
      { phase := Phase.preIncr, counter := 0, unsubmitted := 1,
        inflight := 1, errs := 0 } rfl
    simpa using this
  have h3 : Step 2
      { phase := Phase.polling, counter := 1, unsubmitted := 1,
        inflight := 1, errs := 0 }
      { phase := Phase.polling, counter := 0, unsubmitted := 1,
        inflight := 0, errs := 1 } := by
    have := @Step.workerErr 2
      { phase := Phase.polling, counter := 1, unsubmitted := 1,
        inflight := 1, errs := 0 } (by decide)
    simpa using this
  have h4 : Step 2
      { phase := Phase.polling, counter := 0, unsubmitted := 1,
        inflight := 0, errs := 1 }
      { phase := Phase.idle, counter := 0, unsubmitted := 1,
        inflight := 0, errs := 1 } := by
    have := @Step.pollPass 2
      { phase := Phase.polling, counter := 0, unsubmitted := 1,
        inflight := 0, errs := 1 } rfl (by decide)
    simpa using this
  have h5 : Step 2
      { phase := Phase.idle, counter := 0, unsubmitted := 1,
        inflight := 0, errs := 1 }
      { phase := Phase.preIncr, counter := 0, unsubmitted := 0,
        inflight := 1, errs := 1 } := by
    have := @Step.submit 2
      { phase := Phase.idle, counter := 0, unsubmitted := 1,
        inflight := 0, errs := 1 } rfl (by decide)
    simpa using this
  refine ⟨?_, rfl, h5, rfl, by decide⟩
  exact Reachable.step _ _ (Reachable.step _ _ (Reachable.step _ _
    (Reachable.step _ _ h0 h1) h2) h3) h4

end S3Upload
